import Mathlib

/-!
Verification development for the time-tracking core of the
client-onboarding / project-tracking application.

The definitions below are a shallow embedding of:
  - the `time_entries` table together with its two BEFORE INSERT OR UPDATE
    row triggers (`calculate_duration` and `ensure_single_running_timer`)
    from `setup-all.sql`,
  - the SQL aggregate functions `get_project_total_hours`,
    `get_project_billable_hours`, `get_project_billable_amount` and the
    listing function `get_time_entries_with_details`,
  - the row-level-security policies on `time_entries`,
  - the client operations `startTimer` (project-time-tracker.tsx),
    `stopTimer` (timer-widget.tsx), `deleteEntry`
    (project-time-tracker.tsx) and the manual-entry duration input.

Identifiers (UUIDs) are modelled as naturals, timestamps as integers of
epoch seconds, SQL DECIMAL as rationals.  A nullable column is an Option.
-/

namespace TimeTracker

/-- The `time_entry_type` enum: `manual` | `timer`. -/
inductive EntryType where
  | manual : EntryType
  | timer : EntryType
deriving DecidableEq, Repr

/-- One row of the `time_entries` table (columns that the timer logic
touches; `created_at` and `updated_at` are omitted). `start_time` is a
NOT NULL column, `end_time`, `duration_seconds`, `hourly_rate` are
nullable. -/
structure TimeEntry where
  id : Nat
  userId : Nat
  projectId : Nat
  taskId : Option Nat
  entryType : EntryType
  startTime : Int
  endTime : Option Int
  durationSeconds : Option Int
  description : Option String
  billable : Bool
  hourlyRate : Option ℚ
  isRunning : Bool
deriving DecidableEq, Repr

/-- One row of the `projects` table (the columns the timer logic reads). -/
structure Project where
  id : Nat
  userId : Nat
  name : String
  hourlyRate : Option ℚ
deriving DecidableEq, Repr

/-- One row of the `tasks` table (the columns the timer logic reads). -/
structure Task where
  id : Nat
  title : String
deriving DecidableEq, Repr

/-- The slice of the database the timer engine works on. -/
structure DB where
  projects : List Project
  tasks : List Task
  entries : List TimeEntry
deriving DecidableEq, Repr

/-- Trigger function `calculate_duration` (setup-all.sql): on any BEFORE
INSERT OR UPDATE row, if both `end_time` and `start_time` are non-null
(`start_time` is a NOT NULL column, hence always non-null here), set
`duration_seconds` to the whole-second difference and force
`is_running := FALSE`. -/
def calculate_duration (new : TimeEntry) : TimeEntry :=
  match new.endTime with
  | some e =>
      { new with durationSeconds := some (e - new.startTime), isRunning := false }
  | none => new

/-- The effect on one row of the nested
`UPDATE time_entries SET is_running = FALSE, end_time = NOW() ...`
performed by `ensure_single_running_timer`.  That UPDATE itself fires the
BEFORE UPDATE triggers on the affected row, so `calculate_duration` runs
on the stopped row as well (recomputing its duration);
`ensure_single_running_timer` re-fires too but its NEW row has
`is_running = FALSE`, so it does nothing further. -/
def forceStop (now : Int) (r : TimeEntry) : TimeEntry :=
  calculate_duration { r with isRunning := false, endTime := some now }

/-- Trigger function `ensure_single_running_timer` (setup-all.sql): when
the incoming row has `is_running = TRUE`, force-stop every other running
entry of the same user
(`WHERE user_id = NEW.user_id AND is_running = TRUE AND id != NEW.id`). -/
def ensure_single_running_timer (now : Int) (store : List TimeEntry)
    (new : TimeEntry) : List TimeEntry :=
  if new.isRunning then
    store.map (fun r =>
      if r.userId == new.userId && r.isRunning && r.id != new.id then
        forceStop now r
      else r)
  else store

/-- INSERT INTO time_entries, with the two BEFORE ROW triggers applied.
Postgres fires BEFORE triggers in name order: `trigger_calculate_duration`
first (it rewrites NEW), then `trigger_ensure_single_running_timer`
(its side effect updates the other rows); finally the NEW row is stored. -/
def insertEntry (now : Int) (store : List TimeEntry) (new : TimeEntry) :
    List TimeEntry :=
  let new1 := calculate_duration new
  ensure_single_running_timer now store new1 ++ [new1]

/-- UPDATE time_entries SET ... WHERE id = eid, with the BEFORE ROW
triggers applied.  `f` is the SET clause.  `id` is the primary key, so at
most one row matches; the nested UPDATE of `ensure_single_running_timer`
force-stops the other running rows of the same user. -/
def updateById (now : Int) (store : List TimeEntry) (eid : Nat)
    (f : TimeEntry → TimeEntry) : List TimeEntry :=
  match store.find? (fun r => r.id == eid) with
  | none => store
  | some old =>
      let new1 := calculate_duration (f old)
      store.map (fun r =>
        if r.id == eid then new1
        else if new1.isRunning && r.userId == new1.userId && r.isRunning
            && r.id != new1.id then
          forceStop now r
        else r)

/-- The row built by `handleStart` / `startTimer`
(project-time-tracker.tsx): user, project, optional task,
`entry_type = timer`, `start_time = now`, `is_running = true`; every other
column takes its table default (`end_time` null, `duration_seconds` null,
`description` null, `billable` DEFAULT TRUE, `hourly_rate` null). -/
def startTimerRow (nid u pid : Nat) (tid : Option Nat) (now : Int) :
    TimeEntry :=
  { id := nid, userId := u, projectId := pid, taskId := tid,
    entryType := EntryType.timer, startTime := now, endTime := none,
    durationSeconds := none, description := none, billable := true,
    hourlyRate := none, isRunning := true }

/-- `startTimer` (project-time-tracker.tsx): a plain INSERT of the row
above; the triggers do the force-stopping. -/
def startTimer (now : Int) (store : List TimeEntry) (nid u pid : Nat)
    (tid : Option Nat) : List TimeEntry :=
  insertEntry now store (startTimerRow nid u pid tid now)

/-- The SET clause of `stopTimer` (timer-widget.tsx):
`update({ end_time: now, is_running: false })`. -/
def stopSet (now : Int) (r : TimeEntry) : TimeEntry :=
  { r with endTime := some now, isRunning := false }

/-- `stopTimer` (timer-widget.tsx): UPDATE of one entry by id with the
SET clause above; `duration_seconds` is then produced by the
`calculate_duration` trigger, never by the client. -/
def stopTimer (now : Int) (store : List TimeEntry) (eid : Nat) :
    List TimeEntry :=
  updateById now store eid (stopSet now)

/-- DELETE FROM time_entries WHERE id = eid, as issued by `deleteEntry`
(project-time-tracker.tsx), filtered by the row-level-security policy
"Users can delete own time entries" USING (auth.uid() = user_id): only a
row that matches the id AND is owned by the caller is removed. -/
def deleteEntryRLS (entries : List TimeEntry) (caller eid : Nat) :
    List TimeEntry :=
  entries.filter (fun r => !(r.id == eid && r.userId == caller))

/-- The full result of the delete request.  When the row-level-security
policy filters out every row (the entry exists but is owned by someone
else), the DELETE simply affects zero rows and the client library resolves
with a success and a null error: no error of any kind is produced, so the
result is always `Except.ok`. -/
def deleteEntryResult (entries : List TimeEntry) (caller eid : Nat) :
    Except String (List TimeEntry) :=
  Except.ok (deleteEntryRLS entries caller eid)

/-- Reachable states of the `time_entries` store: the empty table, plus
the closure under trigger-mediated inserts (with a fresh primary key),
trigger-mediated single-row updates (the SET clause keeps the primary
key), and policy-filtered deletes. -/
inductive Reachable : List TimeEntry → Prop where
  | nil : Reachable []
  | insert {s : List TimeEntry} (now : Int) (new : TimeEntry)
      (hfresh : ∀ r ∈ s, r.id ≠ new.id) :
      Reachable s → Reachable (insertEntry now s new)
  | update {s : List TimeEntry} (now : Int) (eid : Nat)
      (f : TimeEntry → TimeEntry) (hid : ∀ r, (f r).id = r.id) :
      Reachable s → Reachable (updateById now s eid f)
  | delete {s : List TimeEntry} (caller eid : Nat) :
      Reachable s → Reachable (deleteEntryRLS s caller eid)

/-- The Boolean "this entry is a running entry of user `u`". -/
def runningFor (u : Nat) (r : TimeEntry) : Bool :=
  r.userId == u && r.isRunning

/-- Floor of a rational, computed on its normalised numerator and
denominator (the denominator of a `Rat` is positive). -/
def floorQ (q : ℚ) : ℤ :=
  Int.fdiv q.num (q.den : ℤ)

/-- Rounding to the nearest integer, halves away from zero: the behaviour
of the SQL `ROUND(numeric)` family used by the aggregate functions. -/
def roundHalfAway (q : ℚ) : ℤ :=
  if 0 ≤ q then floorQ (q + 1/2) else -(floorQ (-q + 1/2))

/-- `ROUND(x, 2)`: round to two decimal places, halves away from zero. -/
def round2 (q : ℚ) : ℚ :=
  (roundHalfAway (q * 100) : ℚ) / 100

/-- `COALESCE(a, b)` on two nullable DECIMAL values. -/
def coalesce2 (a b : Option ℚ) : Option ℚ :=
  match a with
  | some x => some x
  | none => b

/-- The value of the `duration_seconds` column as a DECIMAL, read on rows
where it is non-null. -/
def durQ (te : TimeEntry) : ℚ :=
  match te.durationSeconds with
  | some d => (d : ℚ)
  | none => 0

/-- `get_project_total_hours` (setup-all.sql):
`SELECT COALESCE(SUM(duration_seconds), 0)` over the entries of the
project with non-null duration, then `ROUND(total / 3600, 2)`. -/
def get_project_total_hours (db : DB) (pid : Nat) : ℚ :=
  let v_total_seconds : ℤ :=
    ((db.entries.filter
        (fun te => te.projectId == pid && te.durationSeconds.isSome)).map
      (fun te => te.durationSeconds.getD 0)).sum
  round2 ((v_total_seconds : ℚ) / 3600)

/-- `get_project_billable_hours` (setup-all.sql): as above, restricted to
`billable = TRUE`. -/
def get_project_billable_hours (db : DB) (pid : Nat) : ℚ :=
  let v_total_seconds : ℤ :=
    ((db.entries.filter
        (fun te =>
          te.projectId == pid && te.billable && te.durationSeconds.isSome)).map
      (fun te => te.durationSeconds.getD 0)).sum
  round2 ((v_total_seconds : ℚ) / 3600)

/-- `get_project_billable_amount` (setup-all.sql): look up the project
rate (`SELECT hourly_rate INTO v_project_rate`, null when the project does
not exist), sum `duration_seconds / 3600 * COALESCE(hourly_rate,
v_project_rate, 0)` over the billable entries of the project with non-null
duration, and round the total to 2 decimals. -/
def get_project_billable_amount (db : DB) (pid : Nat) : ℚ :=
  let v_project_rate : Option ℚ :=
    (db.projects.find? (fun p => p.id == pid)).bind Project.hourlyRate
  let v_total_amount : ℚ :=
    ((db.entries.filter
        (fun te =>
          te.projectId == pid && te.billable && te.durationSeconds.isSome)).map
      (fun te =>
        durQ te / 3600 * ((coalesce2 te.hourlyRate v_project_rate).getD 0))).sum
  round2 v_total_amount

/-- One row of the result set of `get_time_entries_with_details`
(`created_at` omitted). -/
structure EntryRow where
  id : Nat
  userId : Nat
  projectId : Nat
  projectName : String
  taskId : Option Nat
  taskTitle : Option String
  entryType : EntryType
  startTime : Int
  endTime : Option Int
  durationSeconds : Option Int
  durationHours : Option ℚ
  description : Option String
  billable : Bool
  hourlyRate : Option ℚ
  amount : Option ℚ
  isRunning : Bool
deriving DecidableEq, Repr

/-- The SELECT list of `get_time_entries_with_details` for one joined row:
entry columns, project name, task title via LEFT JOIN, plus the derived
columns `duration_hours = ROUND(duration_seconds / 3600, 2)` and
`amount = ROUND(duration_seconds / 3600 * COALESCE(te.hourly_rate,
p.hourly_rate, 0), 2)`; both derived columns are null exactly when
`duration_seconds` is null, and `amount` is computed whether or not the
row is billable. -/
def entryRowOf (tasks : List Task) (te : TimeEntry) (p : Project) :
    EntryRow :=
  { id := te.id, userId := te.userId, projectId := te.projectId,
    projectName := p.name, taskId := te.taskId,
    taskTitle :=
      te.taskId.bind (fun tid =>
        (tasks.find? (fun t => t.id == tid)).map Task.title),
    entryType := te.entryType, startTime := te.startTime,
    endTime := te.endTime, durationSeconds := te.durationSeconds,
    durationHours :=
      te.durationSeconds.map (fun d => round2 ((d : ℚ) / 3600)),
    description := te.description, billable := te.billable,
    hourlyRate := te.hourlyRate,
    amount :=
      te.durationSeconds.map (fun d =>
        round2 ((d : ℚ) / 3600
          * ((coalesce2 te.hourlyRate p.hourlyRate).getD 0))),
    isRunning := te.isRunning }

/-- `DATE(timestamptz)` for the date-range filters, at UTC: the epoch day
of the timestamp. -/
def dateOf (t : Int) : Int :=
  Int.fdiv t 86400

/-- Insert one row into a list kept sorted by `start_time` descending. -/
def insertDesc (r : EntryRow) : List EntryRow → List EntryRow
  | [] => [r]
  | x :: xs =>
      if x.startTime ≤ r.startTime then r :: x :: xs
      else x :: insertDesc r xs

/-- `ORDER BY te.start_time DESC`. -/
def sortByStartDesc (l : List EntryRow) : List EntryRow :=
  l.foldr insertDesc []

/-- The WHERE clause of `get_time_entries_with_details` for one entry
joined with project `p`:
`(p_project_id IS NULL OR te.project_id = p_project_id) AND
 (p_start_date IS NULL OR DATE(te.start_time) >= p_start_date) AND
 (p_end_date IS NULL OR DATE(te.start_time) <= p_end_date) AND
 p.user_id = auth.uid()`. -/
def listFilter (caller : Nat) (p_project_id : Option Nat)
    (p_start_date p_end_date : Option Int) (te : TimeEntry) (p : Project) :
    Bool :=
  (match p_project_id with
   | none => true
   | some pid => te.projectId == pid)
  && (match p_start_date with
      | none => true
      | some d => decide (d ≤ dateOf te.startTime))
  && (match p_end_date with
      | none => true
      | some d => decide (dateOf te.startTime ≤ d))
  && p.userId == caller

/-- `get_time_entries_with_details` (setup-all.sql): entries inner-joined
with their project, filtered by the optional project id and date range and
by `p.user_id = auth.uid()` (the function runs SECURITY DEFINER, so this
WHERE clause is the only access control applied), ordered by `start_time`
descending. -/
def get_time_entries_with_details (db : DB) (caller : Nat)
    (p_project_id : Option Nat) (p_start_date p_end_date : Option Int) :
    List EntryRow :=
  sortByStartDesc
    (db.entries.filterMap (fun te =>
      match db.projects.find? (fun p => p.id == te.projectId) with
      | none => none
      | some p =>
          if listFilter caller p_project_id p_start_date p_end_date te p then
            some (entryRowOf db.tasks te p)
          else none))

/-- The row-level-security SELECT policy
"Users can view time entries for accessible projects":
`auth.uid() = user_id OR` the entry belongs to a project owned by the
caller. -/
def rls_can_select_time_entry (db : DB) (caller : Nat) (te : TimeEntry) :
    Bool :=
  caller == te.userId
    || db.projects.any (fun p => p.id == te.projectId && p.userId == caller)

/-- The constraint the manual-entry duration field enforces
(project-time-tracker.tsx): an HTML number input with `min = 0.25`,
`max = 24`, `step = 0.25` and `required`.  Constraint validation accepts a
value iff it lies in `[0.25, 24]` and is `min` plus an integer multiple of
`step`, i.e. an integer multiple of `1/4`.  `handleSubmit` itself performs
no range check and throws no validation error of its own. -/
def durationInputValid (q : ℚ) : Bool :=
  decide ((1 : ℚ)/4 ≤ q) && decide (q ≤ 24) && decide ((4 * q).den = 1)

/-- The effective hourly rate as the specification words it: the rate of
the entry if present, else the rate of the project, else zero. -/
def effectiveRate_spec (p : Project) (te : TimeEntry) : ℚ :=
  te.hourlyRate.getD (p.hourlyRate.getD 0)

/-- The billable amount of a project as the specification words it: the
sum, over the entries of the project with `billable = true` and non-null
duration, of duration hours times the effective rate (as a 2-decimal
DECIMAL). -/
def billableAmount_spec (db : DB) (p : Project) : ℚ :=
  round2
    (((db.entries.filter
        (fun te =>
          te.projectId == p.id && te.billable && te.durationSeconds.isSome)).map
      (fun te => durQ te / 3600 * effectiveRate_spec p te)).sum)

/-- Total hours of a project as the specification words it: the sum of
durations over all entries of the project with non-null duration, in
hours (as a 2-decimal DECIMAL). -/
def totalHours_spec (db : DB) (p : Project) : ℚ :=
  round2
    ((((db.entries.filter
        (fun te => te.projectId == p.id && te.durationSeconds.isSome)).map
      durQ).sum) / 3600)

/-- Billable hours of a project as the specification words it: the same
sum restricted to billable entries. -/
def billableHours_spec (db : DB) (p : Project) : ℚ :=
  round2
    ((((db.entries.filter
        (fun te =>
          te.projectId == p.id && te.billable && te.durationSeconds.isSome)).map
      durQ).sum) / 3600)

/-! Concrete fixtures used by witnesses and counterexamples. -/

/-- A running timer entry of user 1 on project 5, started at second 1000. -/
def exRunning : TimeEntry :=
  { id := 1, userId := 1, projectId := 5, taskId := none,
    entryType := EntryType.timer, startTime := 1000, endTime := none,
    durationSeconds := none, description := none, billable := true,
    hourlyRate := none, isRunning := true }

/-- An already-stopped entry of user 1: started at 0, stopped at 100. -/
def exStopped : TimeEntry :=
  { id := 1, userId := 1, projectId := 5, taskId := none,
    entryType := EntryType.timer, startTime := 0, endTime := some 100,
    durationSeconds := some 100, description := none, billable := true,
    hourlyRate := none, isRunning := false }

/-- An entry owned by user 1 (used to exercise a delete by user 2). -/
def exOwnedByUser1 : TimeEntry :=
  { id := 3, userId := 1, projectId := 5, taskId := none,
    entryType := EntryType.manual, startTime := 0, endTime := some 3600,
    durationSeconds := some 3600, description := none, billable := true,
    hourlyRate := none, isRunning := false }

/-- A manual-entry row as a client could submit it, with a bogus
client-supplied `duration_seconds` that the trigger must override. -/
def exManualBogusDuration : TimeEntry :=
  { id := 9, userId := 1, projectId := 5, taskId := none,
    entryType := EntryType.manual, startTime := 100, endTime := some 3700,
    durationSeconds := some 999999, description := none, billable := true,
    hourlyRate := none, isRunning := false }

/-- Project 5, owned by user 1, with default hourly rate 50. -/
def exProject : Project :=
  { id := 5, userId := 1, name := "P", hourlyRate := some 50 }

/-- Project 6, owned by user 2, with no default rate. -/
def exProjectOther : Project :=
  { id := 6, userId := 2, name := "Q", hourlyRate := none }

/-- A non-billable, stopped, one-hour entry with an entry-level rate. -/
def exNonBillable : TimeEntry :=
  { id := 4, userId := 1, projectId := 5, taskId := none,
    entryType := EntryType.manual, startTime := 200, endTime := some 3800,
    durationSeconds := some 3600, description := none, billable := false,
    hourlyRate := some 50, isRunning := false }

/-- A billable, stopped, one-hour entry with no entry-level rate. -/
def exBillable : TimeEntry :=
  { id := 5, userId := 1, projectId := 5, taskId := none,
    entryType := EntryType.manual, startTime := 900, endTime := some 4500,
    durationSeconds := some 3600, description := none, billable := true,
    hourlyRate := none, isRunning := false }

/-- An entry the caller (user 1) created on the project of user 2. -/
def exOnForeignProject : TimeEntry :=
  { id := 6, userId := 1, projectId := 6, taskId := none,
    entryType := EntryType.manual, startTime := 500, endTime := some 4100,
    durationSeconds := some 3600, description := none, billable := true,
    hourlyRate := some 10, isRunning := false }

/-- A small database: two projects with different owners, three entries. -/
def exDB : DB :=
  { projects := [exProject, exProjectOther], tasks := [],
    entries := [exNonBillable, exBillable, exOnForeignProject] }

/-! Helper lemmas about the triggers. -/

theorem calculate_duration_id (x : TimeEntry) :
    (calculate_duration x).id = x.id := by
  unfold calculate_duration
  cases x.endTime <;> rfl

theorem calculate_duration_userId (x : TimeEntry) :
    (calculate_duration x).userId = x.userId := by
  unfold calculate_duration
  cases x.endTime <;> rfl

theorem calculate_duration_stops (x : TimeEntry) :
    (calculate_duration x).endTime.isSome = true →
    (calculate_duration x).isRunning = false := by
  unfold calculate_duration
  cases hx : x.endTime with
  | some e => intro _; rfl
  | none => intro h; rw [hx] at h; simp at h

theorem calculate_duration_of_none {x : TimeEntry} (h : x.endTime = none) :
    calculate_duration x = x := by
  unfold calculate_duration
  rw [h]

theorem forceStop_eq (now : Int) (r : TimeEntry) :
    forceStop now r =
      { r with
        endTime := some now
        isRunning := false
        durationSeconds := some (now - r.startTime) } := rfl

theorem forceStop_id (now : Int) (r : TimeEntry) :
    (forceStop now r).id = r.id := rfl

theorem forceStop_userId (now : Int) (r : TimeEntry) :
    (forceStop now r).userId = r.userId := rfl

theorem forceStop_not_running (now : Int) (r : TimeEntry) :
    (forceStop now r).isRunning = false := rfl

/-! Helper lemmas about counting. -/

theorem countP_map_le_of_imp {α : Type} (p q : α → Bool) (h : α → α)
    (l : List α) (hpq : ∀ r ∈ l, p (h r) = true → q r = true) :
    (l.map h).countP p ≤ l.countP q := by
  rw [List.countP_map]
  exact List.countP_mono_left (fun a ha hpa => hpq a ha hpa)

theorem countP_map_eq_zero {α : Type} (p : α → Bool) (h : α → α)
    (l : List α) (hp : ∀ r ∈ l, p (h r) = false) :
    (l.map h).countP p = 0 := by
  rw [List.countP_map]
  exact List.countP_eq_zero.mpr (fun a ha => by simp [Function.comp, hp a ha])

theorem countP_id_le_one (s : List TimeEntry) (eid : Nat)
    (hnd : (s.map TimeEntry.id).Nodup) :
    s.countP (fun r => r.id == eid) ≤ 1 := by
  have h1 : (s.map TimeEntry.id).count eid
      = s.countP (fun r => r.id == eid) := by
    rw [List.count_eq_countP, List.countP_map]
    rfl
  rw [← h1]
  exact List.nodup_iff_count_le_one.mp hnd eid

/-! The trigger-mediated operations keep the multiset of primary keys. -/

theorem ensure_ids (now : Int) (s : List TimeEntry) (new : TimeEntry) :
    (ensure_single_running_timer now s new).map TimeEntry.id
      = s.map TimeEntry.id := by
  unfold ensure_single_running_timer
  by_cases h : new.isRunning = true
  · rw [if_pos h, List.map_map]
    apply List.map_congr_left
    intro r _
    by_cases hc : (r.userId == new.userId && r.isRunning && r.id != new.id)
        = true
    · simp [Function.comp, hc, forceStop_id]
    · simp [Function.comp, hc]
  · rw [if_neg h]

theorem updateById_ids (now : Int) (s : List TimeEntry) (eid : Nat)
    (f : TimeEntry → TimeEntry) (hid : ∀ r, (f r).id = r.id) :
    (updateById now s eid f).map TimeEntry.id = s.map TimeEntry.id := by
  unfold updateById
  cases hfind : s.find? (fun r => r.id == eid) with
  | none => rfl
  | some old =>
      have hold : old.id = eid := by simpa using List.find?_some hfind
      rw [List.map_map]
      apply List.map_congr_left
      intro r _
      by_cases h1 : (r.id == eid) = true
      · have hr : r.id = eid := by simpa using h1
        simp [Function.comp, h1, calculate_duration_id, hid, hr, hold]
      · by_cases h2 : ((calculate_duration (f old)).isRunning
            && r.userId == (calculate_duration (f old)).userId && r.isRunning
            && r.id != (calculate_duration (f old)).id) = true
        · simp [Function.comp, h1, h2, forceStop_id]
        · simp [Function.comp, h1, h2]

theorem reachable_nodup {s : List TimeEntry} (h : Reachable s) :
    (s.map TimeEntry.id).Nodup := by
  induction h with
  | nil => simp
  | insert now new hfresh a ih =>
      unfold insertEntry
      rw [List.map_append, ensure_ids]
      simp [List.nodup_append, calculate_duration_id]
      exact ⟨ih, fun r hr hrid => hfresh r hr hrid⟩
  | update now eid f hid a ih =>
      rw [updateById_ids now _ eid f hid]
      exact ih
  | delete caller eid a ih =>
      exact ih.sublist ((List.filter_sublist _).map _)

theorem runningFor_eq_true {u : Nat} {r : TimeEntry} :
    runningFor u r = true ↔ r.userId = u ∧ r.isRunning = true := by
  simp [runningFor]

/-- After the single-timer trigger runs for an incoming running row with a
fresh id, no surviving row of that user is still running. -/
theorem ensure_countP_zero (now : Int) (s : List TimeEntry)
    (new1 : TimeEntry) (hrun : new1.isRunning = true)
    (hfresh : ∀ r ∈ s, r.id ≠ new1.id) :
    (ensure_single_running_timer now s new1).countP
      (runningFor new1.userId) = 0 := by
  unfold ensure_single_running_timer
  rw [if_pos hrun]
  apply countP_map_eq_zero
  intro r hr
  by_cases hc : (r.userId == new1.userId && r.isRunning && r.id != new1.id)
      = true
  · rw [if_pos hc]
    simp [runningFor, forceStop_not_running]
  · rw [if_neg hc]
    rw [Bool.eq_false_iff]
    intro hb
    apply hc
    rcases runningFor_eq_true.mp hb with ⟨hu, hrn⟩
    simp [hu, hrn, hfresh r hr]

theorem insertEntry_countP_le (now : Int) (s : List TimeEntry)
    (new : TimeEntry) (hfresh : ∀ r ∈ s, r.id ≠ new.id) (u : Nat)
    (ih : s.countP (runningFor u) ≤ 1) :
    (insertEntry now s new).countP (runningFor u) ≤ 1 := by
  unfold insertEntry
  rw [List.countP_append]
  have hone : List.countP (runningFor u) [calculate_duration new] ≤ 1 := by
    simp [List.countP_cons]
    split <;> simp
  by_cases hrun : (calculate_duration new).isRunning = true
  · by_cases hu : (calculate_duration new).userId = u
    · have h0 : (ensure_single_running_timer now s
          (calculate_duration new)).countP (runningFor u) = 0 := by
        rw [← hu]
        exact ensure_countP_zero now s _ hrun
          (fun r hr => by rw [calculate_duration_id]; exact hfresh r hr)
      omega
    · have hle : (ensure_single_running_timer now s
          (calculate_duration new)).countP (runningFor u)
          ≤ s.countP (runningFor u) := by
        unfold ensure_single_running_timer
        rw [if_pos hrun]
        apply countP_map_le_of_imp
        intro r hr hp
        by_cases hc : (r.userId == (calculate_duration new).userId
            && r.isRunning && r.id != (calculate_duration new).id) = true
        · rw [if_pos hc] at hp
          exfalso
          simp [runningFor, forceStop_not_running] at hp
        · rw [if_neg hc] at hp
          exact hp
      have h1 : List.countP (runningFor u) [calculate_duration new] = 0 := by
        have hf : runningFor u (calculate_duration new) = false := by
          rw [Bool.eq_false_iff]
          intro hb
          exact hu (runningFor_eq_true.mp hb).1
        simp [List.countP_cons, hf]
      omega
  · unfold ensure_single_running_timer
    rw [if_neg hrun]
    have h1 : List.countP (runningFor u) [calculate_duration new] = 0 := by
      have hf : runningFor u (calculate_duration new) = false := by
        rw [Bool.eq_false_iff]
        intro hb
        exact hrun (runningFor_eq_true.mp hb).2
      simp [List.countP_cons, hf]
    omega

theorem updateById_countP_le (now : Int) (s : List TimeEntry) (eid : Nat)
    (f : TimeEntry → TimeEntry) (hid : ∀ r, (f r).id = r.id)
    (hnd : (s.map TimeEntry.id).Nodup) (u : Nat)
    (ih : s.countP (runningFor u) ≤ 1) :
    (updateById now s eid f).countP (runningFor u) ≤ 1 := by
  unfold updateById
  cases hfind : s.find? (fun r => r.id == eid) with
  | none => exact ih
  | some old =>
      have hold : old.id = eid := by simpa using List.find?_some hfind
      have hnid : (calculate_duration (f old)).id = eid := by
        rw [calculate_duration_id, hid]
        exact hold
      by_cases hrun : (calculate_duration (f old)).isRunning = true
      · by_cases hu : (calculate_duration (f old)).userId = u
        · refine le_trans
            (countP_map_le_of_imp _ (fun r => r.id == eid) _ s ?_)
            (countP_id_le_one s eid hnd)
          intro r hr hp
          by_cases h1 : (r.id == eid) = true
          · exact h1
          · exfalso
            rw [if_neg h1] at hp
            by_cases h2 : ((calculate_duration (f old)).isRunning
                && r.userId == (calculate_duration (f old)).userId
                && r.isRunning
                && r.id != (calculate_duration (f old)).id) = true
            · rw [if_pos h2] at hp
              simp [runningFor, forceStop_not_running] at hp
            · rw [if_neg h2] at hp
              apply h2
              rcases runningFor_eq_true.mp hp with ⟨hru, hrr⟩
              have hne : r.id ≠ eid := by simpa using h1
              simp [hrun, hru, hu, hrr, hnid, hne]
        · refine le_trans
            (countP_map_le_of_imp _ (runningFor u) _ s ?_) ih
          intro r hr hp
          by_cases h1 : (r.id == eid) = true
          · rw [if_pos h1] at hp
            exfalso
            rcases runningFor_eq_true.mp hp with ⟨hru, _⟩
            exact hu hru
          · rw [if_neg h1] at hp
            by_cases h2 : ((calculate_duration (f old)).isRunning
                && r.userId == (calculate_duration (f old)).userId
                && r.isRunning
                && r.id != (calculate_duration (f old)).id) = true
            · rw [if_pos h2] at hp
              exfalso
              simp [runningFor, forceStop_not_running] at hp
            · rw [if_neg h2] at hp
              exact hp
      · refine le_trans
          (countP_map_le_of_imp _ (runningFor u) _ s ?_) ih
        intro r hr hp
        by_cases h1 : (r.id == eid) = true
        · rw [if_pos h1] at hp
          exfalso
          rcases runningFor_eq_true.mp hp with ⟨_, hrr⟩
          exact hrun hrr
        · rw [if_neg h1] at hp
          by_cases h2 : ((calculate_duration (f old)).isRunning
              && r.userId == (calculate_duration (f old)).userId
              && r.isRunning
              && r.id != (calculate_duration (f old)).id) = true
          · rw [if_pos h2] at hp
            exfalso
            simp [runningFor, forceStop_not_running] at hp
          · rw [if_neg h2] at hp
            exact hp

/-- Claim C1: for every user and every reachable state of the time-entry
store (reachable via the insert/update step relation with the
calculate_duration and ensure_single_running_timer triggers applied), at
most one time entry of that user has isRunning = true. -/
theorem single_running_timer_invariant {s : List TimeEntry}
    (h : Reachable s) (u : Nat) :
    s.countP (runningFor u) ≤ 1 := by
  induction h with
  | nil => simp
  | insert now new hfresh a ih =>
      exact insertEntry_countP_le now _ new hfresh u ih
  | update now eid f hid a ih =>
      exact updateById_countP_le now _ eid f hid (reachable_nodup a) u ih
  | delete caller eid a ih =>
      exact le_trans ((List.filter_sublist _).countP_le _) ih

/-- Witness for C1 at a concrete reachable state: after starting one
timer from the empty store, user 1 has at most one running entry. -/
theorem single_running_timer_invariant_witness :
    (insertEntry 100 [] (startTimerRow 7 1 5 none 100)).countP
      (runningFor 1) ≤ 1 :=
  single_running_timer_invariant
    (Reachable.insert 100 (startTimerRow 7 1 5 none 100)
      (by simp) Reachable.nil) 1

/-- Claim C9: in every reachable state of the time-entry store, every
time entry with a non-null endTime has isRunning = false (isRunning is
forced false on any insert or update that sets endTime). -/
theorem end_time_implies_stopped {s : List TimeEntry} (h : Reachable s) :
    ∀ r ∈ s, r.endTime.isSome = true → r.isRunning = false := by
  induction h with
  | nil => simp
  | insert now new hfresh a ih =>
      intro r hr hend
      unfold insertEntry at hr
      rcases List.mem_append.mp hr with h1 | h2
      · unfold ensure_single_running_timer at h1
        by_cases hb : (calculate_duration new).isRunning = true
        · rw [if_pos hb] at h1
          obtain ⟨x, hx, hgx⟩ := List.exists_of_mem_map h1
          by_cases hc : (x.userId == (calculate_duration new).userId
              && x.isRunning && x.id != (calculate_duration new).id) = true
          · rw [if_pos hc] at hgx
            rw [← hgx]
            exact forceStop_not_running now x
          · rw [if_neg hc] at hgx
            rw [← hgx]
            rw [← hgx] at hend
            exact ih x hx hend
        · rw [if_neg hb] at h1
          exact ih r h1 hend
      · rw [List.mem_singleton.mp h2]
        rw [List.mem_singleton.mp h2] at hend
        exact calculate_duration_stops new hend
  | @update t now eid f hid a ih =>
      intro r hr hend
      unfold updateById at hr
      cases hfind : t.find? (fun r => r.id == eid) with
      | none =>
          rw [hfind] at hr
          exact ih r hr hend
      | some old =>
          rw [hfind] at hr
          obtain ⟨x, hx, hgx⟩ := List.exists_of_mem_map hr
          by_cases h1 : (x.id == eid) = true
          · rw [if_pos h1] at hgx
            rw [← hgx] at hend ⊢
            exact calculate_duration_stops (f old) hend
          · rw [if_neg h1] at hgx
            by_cases h2 : ((calculate_duration (f old)).isRunning
                && x.userId == (calculate_duration (f old)).userId
                && x.isRunning
                && x.id != (calculate_duration (f old)).id) = true
            · rw [if_pos h2] at hgx
              rw [← hgx]
              exact forceStop_not_running now x
            · rw [if_neg h2] at hgx
              rw [← hgx] at hend ⊢
              exact ih x hx hend
  | delete caller eid a ih =>
      intro r hr hend
      exact ih r (List.mem_of_mem_filter hr) hend

/-- Witness for C9 at a concrete reachable state: the manual entry with a
set endTime, inserted into the empty store, is not running. -/
theorem end_time_implies_stopped_witness :
    (calculate_duration exManualBogusDuration).isRunning = false :=
  end_time_implies_stopped
    (Reachable.insert 0 exManualBogusDuration (by simp) Reachable.nil)
    (calculate_duration exManualBogusDuration)
    (by decide) (by decide)

/-- Claim C2: for every user with a running entry, starting a new timer
force-stops the previous running entry: afterwards exactly one entry of
that user is running (the new one), and the previous entry has endTime set
to the time of the second start, isRunning false, and durationSeconds
computed from its start/end times, exactly as if the user had explicitly
stopped it (the stopped row equals the row the stop-timer UPDATE payload
would have produced). -/
theorem startTimer_force_stops_previous (s : List TimeEntry) (now : Int)
    (nid u pid : Nat) (tid : Option Nat) (r : TimeEntry) (hr : r ∈ s)
    (hrun : r.isRunning = true) (hu : r.userId = u)
    (hfresh : ∀ x ∈ s, x.id ≠ nid) :
    (startTimer now s nid u pid tid).countP (runningFor u) = 1
    ∧ startTimerRow nid u pid tid now ∈ startTimer now s nid u pid tid
    ∧ (startTimerRow nid u pid tid now).isRunning = true
    ∧ (∀ x ∈ startTimer now s nid u pid tid,
        runningFor u x = true → x = startTimerRow nid u pid tid now)
    ∧ (∃ r1 ∈ startTimer now s nid u pid tid, r1.id = r.id
        ∧ r1.endTime = some now ∧ r1.isRunning = false
        ∧ r1.durationSeconds = some (now - r.startTime)
        ∧ r1 = calculate_duration (stopSet now r)) := by
  have hst : startTimer now s nid u pid tid
      = ensure_single_running_timer now s (startTimerRow nid u pid tid now)
        ++ [startTimerRow nid u pid tid now] := rfl
  have hfresh2 : ∀ x ∈ s, x.id ≠ (startTimerRow nid u pid tid now).id :=
    fun x hx => hfresh x hx
  have hzero : (ensure_single_running_timer now s
      (startTimerRow nid u pid tid now)).countP (runningFor u) = 0 :=
    ensure_countP_zero now s _ rfl hfresh2
  have hmemrow : startTimerRow nid u pid tid now
      ∈ startTimer now s nid u pid tid := by
    rw [hst]
    exact List.mem_append_right _ (List.mem_singleton_self _)
  refine ⟨?_, hmemrow, rfl, ?_, ?_⟩
  · rw [hst, List.countP_append, hzero]
    simp [List.countP_cons, runningFor]
    exact ⟨rfl, rfl⟩
  · intro x hx hxr
    rw [hst] at hx
    rcases List.mem_append.mp hx with h1 | h2
    · have hfalse := List.countP_eq_zero.mp hzero x h1
      simp [hxr] at hfalse
    · exact List.mem_singleton.mp h2
  · refine ⟨forceStop now r, ?_, rfl, rfl, rfl, rfl, rfl⟩
    rw [hst]
    apply List.mem_append_left
    unfold ensure_single_running_timer
    have hcond : (startTimerRow nid u pid tid now).isRunning = true := rfl
    rw [if_pos hcond]
    apply List.mem_map.mpr
    refine ⟨r, hr, ?_⟩
    rw [if_pos ?_]
    show (r.userId == u && r.isRunning && r.id != nid) = true
    simp [hu, hrun, hfresh r hr]

/-- Witness for C2 at concrete inputs: starting a second timer at second
2000 while exRunning is active leaves exactly one running entry of user
1. -/
theorem startTimer_force_stops_previous_witness :
    (startTimer 2000 [exRunning] 7 1 5 none).countP (runningFor 1) = 1 :=
  (startTimer_force_stops_previous [exRunning] 2000 7 1 5 none exRunning
    (by decide) (by decide) (by decide) (by decide)).1

/-- Claim C3: for every insert or update of a time entry in which endTime
is non-null (startTime is a NOT NULL column), the stored durationSeconds
equals endTime - startTime in whole seconds, exactly, regardless of any
client-supplied durationSeconds value. -/
theorem duration_recomputed_on_write :
    (∀ (s : List TimeEntry) (now : Int) (new : TimeEntry) (e : Int),
      new.endTime = some e →
      ∃ r1 ∈ insertEntry now s new, r1.id = new.id
        ∧ r1.durationSeconds = some (e - new.startTime)
        ∧ r1.isRunning = false)
    ∧ (∀ (s : List TimeEntry) (now : Int) (eid : Nat)
        (f : TimeEntry → TimeEntry) (old : TimeEntry) (e : Int),
      s.find? (fun x => x.id == eid) = some old →
      (f old).endTime = some e →
      ∃ r1 ∈ updateById now s eid f, r1.id = (f old).id
        ∧ r1.durationSeconds = some (e - (f old).startTime)
        ∧ r1.isRunning = false) := by
  constructor
  · intro s now new e hend
    refine ⟨calculate_duration new, ?_, ?_, ?_, ?_⟩
    · unfold insertEntry
      exact List.mem_append_right _ (List.mem_singleton_self _)
    · exact calculate_duration_id new
    · unfold calculate_duration
      rw [hend]
    · unfold calculate_duration
      rw [hend]
  · intro s now eid f old e hfind hend
    have hmem : old ∈ s := List.mem_of_find?_eq_some hfind
    have hold : (old.id == eid) = true := by
      simpa using List.find?_some hfind
    refine ⟨calculate_duration (f old), ?_, ?_, ?_, ?_⟩
    · unfold updateById
      rw [hfind]
      apply List.mem_map.mpr
      refine ⟨old, hmem, ?_⟩
      rw [if_pos hold]
    · exact calculate_duration_id (f old)
    · unfold calculate_duration
      rw [hend]
    · unfold calculate_duration
      rw [hend]

/-- Witness for C3 at a concrete input: inserting a manual entry with a
bogus client-supplied duration of 999999 seconds stores the derived
duration 3600 instead. -/
theorem duration_recomputed_on_write_witness :
    ∃ r1 ∈ insertEntry 0 [] exManualBogusDuration,
      r1.id = exManualBogusDuration.id
      ∧ r1.durationSeconds = some (3700 - exManualBogusDuration.startTime)
      ∧ r1.isRunning = false :=
  duration_recomputed_on_write.1 [] 0 exManualBogusDuration 3700 rfl

theorem durQ_eq (te : TimeEntry) :
    durQ te = ((te.durationSeconds.getD 0 : ℤ) : ℚ) := by
  unfold durQ
  cases te.durationSeconds <;> rfl

theorem sum_dur_cast (l : List TimeEntry) :
    (((l.map (fun te => te.durationSeconds.getD 0)).sum : ℤ) : ℚ)
      = (l.map durQ).sum := by
  induction l with
  | nil => simp
  | cons a t ih =>
      simp [List.map_cons, List.sum_cons, Int.cast_add, ih, durQ_eq]

theorem coalesce2_getD (a b : Option ℚ) :
    (coalesce2 a b).getD 0 = a.getD (b.getD 0) := by
  cases a <;> rfl

/-- Claim C4: for every project, the billable amount equals the (2-decimal)
sum over that project's entries with billable = true and non-null
durationSeconds of duration hours times the effective rate, where the
effective rate is the entry's hourlyRate if present, else the project's
hourlyRate, else 0; and total / billable hours are the corresponding sums
of durations over all, respectively billable, entries with non-null
duration. -/
theorem project_totals_match_spec (db : DB) (p : Project)
    (hfind : db.projects.find? (fun q => q.id == p.id) = some p) :
    get_project_billable_amount db p.id = billableAmount_spec db p
    ∧ get_project_total_hours db p.id = totalHours_spec db p
    ∧ get_project_billable_hours db p.id = billableHours_spec db p := by
  refine ⟨?_, ?_, ?_⟩
  · simp only [get_project_billable_amount, billableAmount_spec, hfind]
    congr 1
    apply congrArg
    apply List.map_congr_left
    intro te _
    rw [coalesce2_getD]
    rfl
  · simp only [get_project_total_hours, totalHours_spec]
    congr 1
    rw [sum_dur_cast]
  · simp only [get_project_billable_hours, billableHours_spec]
    congr 1
    rw [sum_dur_cast]

/-- Witness for C4 at a concrete database. -/
theorem project_totals_match_spec_witness :
    get_project_billable_amount exDB exProject.id
      = billableAmount_spec exDB exProject
    ∧ get_project_total_hours exDB exProject.id
      = totalHours_spec exDB exProject
    ∧ get_project_billable_hours exDB exProject.id
      = billableHours_spec exDB exProject :=
  project_totals_match_spec exDB exProject (by decide)

theorem mem_insertDesc (r x : EntryRow) (l : List EntryRow) :
    x ∈ insertDesc r l ↔ x = r ∨ x ∈ l := by
  induction l with
  | nil => simp [insertDesc]
  | cons a t ih =>
      unfold insertDesc
      by_cases h : a.startTime ≤ r.startTime
      · rw [if_pos h]
        simp [List.mem_cons]
      · rw [if_neg h]
        simp [List.mem_cons, ih]
        tauto

theorem mem_sortByStartDesc (l : List EntryRow) (x : EntryRow) :
    x ∈ sortByStartDesc l ↔ x ∈ l := by
  unfold sortByStartDesc
  induction l with
  | nil => simp
  | cons a t ih =>
      rw [List.foldr_cons, mem_insertDesc]
      simp [List.mem_cons, ih]

theorem pairwise_insertDesc (r : EntryRow) (l : List EntryRow)
    (h : l.Pairwise (fun a b => b.startTime ≤ a.startTime)) :
    (insertDesc r l).Pairwise (fun a b => b.startTime ≤ a.startTime) := by
  induction l with
  | nil => simp [insertDesc]
  | cons a t ih =>
      rw [List.pairwise_cons] at h
      unfold insertDesc
      by_cases hc : a.startTime ≤ r.startTime
      · rw [if_pos hc]
        refine List.Pairwise.cons ?_ (List.Pairwise.cons h.1 h.2)
        intro b hb
        rcases List.mem_cons.mp hb with hba | hbt
        · rw [hba]
          exact hc
        · exact le_trans (h.1 b hbt) hc
      · rw [if_neg hc]
        refine List.Pairwise.cons ?_ (ih h.2)
        intro b hb
        rcases (mem_insertDesc r b t).mp hb with hbr | hbt
        · rw [hbr]
          exact le_of_not_le hc
        · exact h.1 b hbt

theorem pairwise_sortByStartDesc (l : List EntryRow) :
    (sortByStartDesc l).Pairwise (fun a b => b.startTime ≤ a.startTime) := by
  unfold sortByStartDesc
  induction l with
  | nil => simp
  | cons a t ih =>
      rw [List.foldr_cons]
      exact pairwise_insertDesc a _ ih

theorem mem_get_time_entries (db : DB) (caller : Nat) (pf : Option Nat)
    (sd ed : Option Int) (row : EntryRow) :
    row ∈ get_time_entries_with_details db caller pf sd ed ↔
      ∃ te ∈ db.entries, ∃ p,
        db.projects.find? (fun q => q.id == te.projectId) = some p
        ∧ listFilter caller pf sd ed te p = true
        ∧ row = entryRowOf db.tasks te p := by
  unfold get_time_entries_with_details
  rw [mem_sortByStartDesc, List.mem_filterMap]
  constructor
  · rintro ⟨te, hte, hsome⟩
    cases hfind : db.projects.find? (fun q => q.id == te.projectId) with
    | none =>
        rw [hfind] at hsome
        simp at hsome
    | some p =>
        rw [hfind] at hsome
        dsimp only at hsome
        by_cases hc : listFilter caller pf sd ed te p = true
        · rw [if_pos hc] at hsome
          exact ⟨te, hte, p, hfind, hc, (Option.some_injective _ hsome).symm⟩
        · rw [if_neg hc] at hsome
          simp at hsome
  · rintro ⟨te, hte, p, hfind, hc, hrow⟩
    refine ⟨te, hte, ?_⟩
    rw [hfind]
    dsimp only
    rw [if_pos hc, hrow]

/-- Claim C10: every row returned by get_time_entries_with_details belongs
to a project owned by the calling user; entries on projects owned by other
users are never included, even when the row-level-security SELECT policy
would let the caller read the entry directly (for example because the
caller authored it); and the returned rows are ordered by startTime
descending. -/
theorem list_entries_scoped_and_sorted (db : DB) (caller : Nat)
    (pf : Option Nat) (sd ed : Option Int)
    (hnd : (db.entries.map TimeEntry.id).Nodup) :
    (∀ row ∈ get_time_entries_with_details db caller pf sd ed,
       ∃ p ∈ db.projects, p.id = row.projectId ∧ p.userId = caller)
    ∧ (∀ te ∈ db.entries, ∀ p,
        db.projects.find? (fun q => q.id == te.projectId) = some p →
        p.userId ≠ caller →
        (te.userId = caller → rls_can_select_time_entry db caller te = true)
        ∧ (∀ row ∈ get_time_entries_with_details db caller pf sd ed,
            row.id ≠ te.id))
    ∧ (get_time_entries_with_details db caller pf sd ed).Pairwise
        (fun a b => b.startTime ≤ a.startTime) := by
  refine ⟨?_, ?_, ?_⟩
  · intro row hrow
    obtain ⟨te, hte, p, hfind, hc, hrow_eq⟩ :=
      (mem_get_time_entries db caller pf sd ed row).mp hrow
    have hp_mem : p ∈ db.projects := List.mem_of_find?_eq_some hfind
    have hpid : p.id = te.projectId := by
      simpa using List.find?_some hfind
    have hcaller : p.userId = caller := by
      unfold listFilter at hc
      simp only [Bool.and_eq_true, beq_iff_eq] at hc
      exact hc.2
    refine ⟨p, hp_mem, ?_, hcaller⟩
    rw [hrow_eq]
    exact hpid
  · intro te hte p hfind hnotown
    constructor
    · intro hown
      unfold rls_can_select_time_entry
      simp [hown]
    · intro row hrow hideq
      obtain ⟨te2, hte2, p2, hfind2, hc2, hrow_eq⟩ :=
        (mem_get_time_entries db caller pf sd ed row).mp hrow
      have hid2 : row.id = te2.id := by
        rw [hrow_eq]
        rfl
      have hte_eq : te2 = te := by
        apply List.inj_on_of_nodup_map hnd hte2 hte
        rw [← hid2, hideq]
      rw [hte_eq] at hfind2
      have hp_eq : p2 = p := by
        rw [hfind2] at hfind
        exact Option.some_injective _ hfind
      have hcaller2 : p2.userId = caller := by
        unfold listFilter at hc2
        simp only [Bool.and_eq_true, beq_iff_eq] at hc2
        exact hc2.2
      rw [hp_eq] at hcaller2
      exact hnotown hcaller2
  · exact pairwise_sortByStartDesc _

/-- Witness for C10 at a concrete database: the rows the caller sees are
sorted by start time, descending. -/
theorem list_entries_scoped_and_sorted_witness :
    (get_time_entries_with_details exDB 1 none none none).Pairwise
      (fun a b => b.startTime ≤ a.startTime) :=
  (list_entries_scoped_and_sorted exDB 1 none none none (by decide)).2.2

/-- Counterexample to C5 as stated: the listing function computes a
non-null, non-zero amount for a row with billable = false, so the amount
is not "computed only when billable = true". -/
theorem amount_computed_for_nonbillable_row :
    ∃ row ∈ get_time_entries_with_details exDB 1 (some 5) none none,
      row.billable = false ∧ row.amount = some 50 := by
  with_unfolding_all decide

/-- Claim C5 amended: for every time entry returned by ListEntries, the
derived per-entry amount equals durationSeconds/3600 multiplied by the
hourlyRate of the entry if present, else the hourlyRate of the project,
else 0, rounded to 2 decimals; the amount is computed for every returned
row regardless of billable (it is null exactly when durationSeconds is
null). -/
theorem amount_formula_for_all_rows (db : DB) (caller : Nat)
    (pf : Option Nat) (sd ed : Option Int) (row : EntryRow)
    (hrow : row ∈ get_time_entries_with_details db caller pf sd ed) :
    ∃ te ∈ db.entries, ∃ p,
      db.projects.find? (fun q => q.id == te.projectId) = some p
      ∧ row.billable = te.billable
      ∧ row.amount = te.durationSeconds.map (fun d =>
          round2 ((d : ℚ) / 3600
            * (te.hourlyRate.getD (p.hourlyRate.getD 0)))) := by
  obtain ⟨te, hte, p, hfind, hc, hrow_eq⟩ :=
    (mem_get_time_entries db caller pf sd ed row).mp hrow
  refine ⟨te, hte, p, hfind, ?_, ?_⟩
  · rw [hrow_eq]
    rfl
  · rw [hrow_eq]
    dsimp only [entryRowOf]
    cases te.durationSeconds <;> simp [coalesce2_getD]

/-- Witness for C5 (amended) at a concrete row of the concrete database. -/
theorem amount_formula_for_all_rows_witness :
    ∃ te ∈ exDB.entries, ∃ p,
      exDB.projects.find? (fun q => q.id == te.projectId) = some p
      ∧ (entryRowOf exDB.tasks exNonBillable exProject).billable
          = te.billable
      ∧ (entryRowOf exDB.tasks exNonBillable exProject).amount
          = te.durationSeconds.map (fun d =>
              round2 ((d : ℚ) / 3600
                * (te.hourlyRate.getD (p.hourlyRate.getD 0)))) :=
  amount_formula_for_all_rows exDB 1 (some 5) none none
    (entryRowOf exDB.tasks exNonBillable exProject)
    ((mem_get_time_entries exDB 1 (some 5) none none _).mpr
      ⟨exNonBillable, by decide, exProject, by decide, by decide, rfl⟩)

/-- Counterexample to C6 as stated: calling the stop-timer UPDATE again on
the already-stopped entry exStopped (endTime 100, duration 100) at second
500 succeeds, but does not leave the entry unchanged — endTime becomes
500 and durationSeconds is recomputed to 500. -/
theorem restop_overwrites_fields :
    ∃ r1 ∈ stopTimer 500 [exStopped] 1,
      r1.id = exStopped.id ∧ r1.endTime = some 500
      ∧ r1.endTime ≠ exStopped.endTime
      ∧ r1.durationSeconds = some 500
      ∧ r1.durationSeconds ≠ exStopped.durationSeconds := by
  decide

/-- Claim C6 amended: calling StopTimer on an already-stopped entry
succeeds without error (the UPDATE is total and raises nothing) and keeps
isRunning = false and every other entry unchanged, but it overwrites the
entry's endTime with the new stop time and recomputes durationSeconds from
it, rather than leaving endTime and durationSeconds unchanged. -/
theorem stop_already_stopped (s : List TimeEntry) (now : Int) (eid : Nat)
    (old : TimeEntry) (hfind : s.find? (fun r => r.id == eid) = some old)
    (hstop : old.isRunning = false) :
    stopTimer now s eid = s.map (fun r =>
      if r.id == eid then
        { old with
          endTime := some now
          isRunning := false
          durationSeconds := some (now - old.startTime) }
      else r) := by
  unfold stopTimer updateById
  rw [hfind]
  dsimp only
  apply List.map_congr_left
  intro r _
  by_cases h1 : (r.id == eid) = true
  · rw [if_pos h1, if_pos h1]
    rfl
  · rw [if_neg h1, if_neg h1]
    have hfalse : (calculate_duration (stopSet now old)).isRunning = false :=
      rfl
    simp [hfalse]

/-- Witness for C6 (amended) at a concrete input. -/
theorem stop_already_stopped_witness :
    stopTimer 500 [exStopped] 1 = [exStopped].map (fun r =>
      if r.id == 1 then
        { exStopped with
          endTime := some (500 : Int)
          isRunning := false
          durationSeconds := some (500 - exStopped.startTime) }
      else r) :=
  stop_already_stopped [exStopped] 500 1 exStopped (by decide) (by decide)

/-- Counterexample to C7 as stated: 0.1 hours lies inside (0, 24] but the
duration input rejects it (its minimum is 0.25 and its step is 0.25), so
the form does not accept every duration in (0, 24]. -/
theorem duration_tenth_rejected :
    durationInputValid (1/10) = false
    ∧ (0 : ℚ) < 1/10 ∧ (1/10 : ℚ) ≤ 24 := by
  with_unfolding_all decide

/-- Claim C7 amended: the manual-entry duration input accepts exactly the
integer multiples of 0.25 in [0.25, 24] (browser min/max/step constraint
validation; handleSubmit itself throws no ValidationError): 0 and 25 are
both rejected, every accepted value lies in (0, 24], but not every value
of (0, 24] is accepted. -/
theorem duration_input_characterization :
    durationInputValid 0 = false
    ∧ durationInputValid 25 = false
    ∧ (∀ q : ℚ, durationInputValid q = true → 0 < q ∧ q ≤ 24)
    ∧ (∀ q : ℚ, durationInputValid q = true ↔
        ∃ n : ℕ, 1 ≤ n ∧ n ≤ 96 ∧ q = (n : ℚ)/4) := by
  refine ⟨by with_unfolding_all decide, by with_unfolding_all decide, ?_, ?_⟩
  · intro q hq
    unfold durationInputValid at hq
    simp only [Bool.and_eq_true, decide_eq_true_eq] at hq
    obtain ⟨⟨h1, h2⟩, h3⟩ := hq
    exact ⟨by linarith, h2⟩
  · intro q
    unfold durationInputValid
    simp only [Bool.and_eq_true, decide_eq_true_eq]
    constructor
    · rintro ⟨⟨h1, h2⟩, h3⟩
      have hm : ((4 * q).num : ℚ) = 4 * q :=
        Rat.coe_int_num_of_den_eq_one h3
      have hq4 : (1 : ℚ) ≤ 4 * q := by linarith
      have hq96 : 4 * q ≤ (96 : ℚ) := by linarith
      have hmge : (1 : ℤ) ≤ (4 * q).num := by
        have hc : ((1 : ℤ) : ℚ) ≤ ((4 * q).num : ℚ) := by
          rw [hm]
          exact_mod_cast hq4
        exact_mod_cast hc
      have hmle : (4 * q).num ≤ 96 := by
        have hc : ((4 * q).num : ℚ) ≤ ((96 : ℤ) : ℚ) := by
          rw [hm]
          exact_mod_cast hq96
        exact_mod_cast hc
      refine ⟨(4 * q).num.toNat, by omega, by omega, ?_⟩
      have hcast : (((4 * q).num.toNat : ℕ) : ℚ) = ((4 * q).num : ℚ) := by
        rw [← Int.cast_natCast]
        rw [Int.toNat_of_nonneg (by omega)]
      rw [hcast, hm]
      ring
    · rintro ⟨n, hn1, hn96, rfl⟩
      have hq1 : (1 : ℚ) ≤ (n : ℚ) := by exact_mod_cast hn1
      have hq2 : (n : ℚ) ≤ 96 := by exact_mod_cast hn96
      refine ⟨⟨by linarith, by linarith⟩, ?_⟩
      have h4 : (4 : ℚ) * ((n : ℚ)/4) = (n : ℚ) := by ring
      rw [h4]
      exact Rat.den_natCast n

/-- Witness for C7 (amended): 2 hours is accepted and lies in (0, 24]. -/
theorem duration_input_characterization_witness :
    (0 : ℚ) < 2 ∧ (2 : ℚ) ≤ 24 :=
  duration_input_characterization.2.2.1 2 (by with_unfolding_all decide)

/-- Counterexample to C8 as stated: user 2 deleting entry 3 (owned by
user 1) does not fail with an AuthorizationError — the row-level-security
policy filters the row out, the DELETE affects zero rows, and the call
resolves successfully with the store unchanged. -/
theorem delete_foreign_entry_succeeds :
    deleteEntryResult [exOwnedByUser1] 2 3 = Except.ok [exOwnedByUser1]
    ∧ exOwnedByUser1.userId ≠ 2 := by
  exact ⟨rfl, by decide⟩

/-- Claim C8 amended: deleting an entry not owned by the caller leaves the
time-entry store unchanged (no row is deleted or modified), but the
operation succeeds with zero rows affected instead of failing with an
AuthorizationError. -/
theorem delete_foreign_entry_noop (entries : List TimeEntry)
    (caller eid : Nat)
    (h : ∀ r ∈ entries, r.id = eid → r.userId ≠ caller) :
    deleteEntryResult entries caller eid = Except.ok entries := by
  unfold deleteEntryResult deleteEntryRLS
  congr 1
  apply List.filter_eq_self.mpr
  intro a ha
  by_cases h1 : a.id = eid
  · have h2 := h a ha h1
    simp [h1, h2]
  · simp [h1]

/-- Witness for C8 (amended) at a concrete input. -/
theorem delete_foreign_entry_noop_witness :
    deleteEntryResult [exOwnedByUser1] 2 4 = Except.ok [exOwnedByUser1] :=
  delete_foreign_entry_noop [exOwnedByUser1] 2 4 (by decide)

end TimeTracker
